import Mathlib

/-!
Shallow embedding of the AES core of the ifb_seg repository
(src/impl/cryp/aes/aes.py, src/trabalho_00/impl/cryp/aes/constants.py,
src/proj-01/impl/cryp/aes/ecb.py) and proofs about it.

Conventions of the embedding:
- Python byte values are Nat (every theorem that needs the byte range carries
  explicit bounds such as b < 256).
- Python exceptions (KeyError from the dict lookup of the round count,
  IndexError from an out-of-range list index) are modelled with Option:
  a raising call is none.
- The table lookups that the algorithms only ever perform with an in-range
  index (the S-boxes, which are indexed by a byte) are modelled with
  List.getD and default 0; every theorem keeps those indices in range.
  The round-constant lookup, whose out-of-range behaviour the spec talks
  about, is modelled with full Python indexing semantics (pyIndex),
  including the negative-index wrap-around.
- The code mutates its state matrix in place; since each written cell is
  never read again afterwards inside one transformation, each
  transformation is embedded as the pure function it computes.
- shift_rows and inv_shift_rows in the source perform tuple assignments on
  a 4x4 matrix (anything else raises IndexError); their embeddings pattern
  match on the 4x4 shape, and every theorem about them carries that shape.
-/

set_option maxRecDepth 20000
set_option maxHeartbeats 4000000

/-- From constants.py: AES_S_BOX, the forward S-box (256 entries). -/
def AES_S_BOX : List Nat := [
  0x63, 0x7c, 0x77, 0x7b, 0xf2, 0x6b, 0x6f, 0xc5, 0x30, 0x01, 0x67, 0x2b, 0xfe, 0xd7, 0xab, 0x76,
  0xca, 0x82, 0xc9, 0x7d, 0xfa, 0x59, 0x47, 0xf0, 0xad, 0xd4, 0xa2, 0xaf, 0x9c, 0xa4, 0x72, 0xc0,
  0xb7, 0xfd, 0x93, 0x26, 0x36, 0x3f, 0xf7, 0xcc, 0x34, 0xa5, 0xe5, 0xf1, 0x71, 0xd8, 0x31, 0x15,
  0x04, 0xc7, 0x23, 0xc3, 0x18, 0x96, 0x05, 0x9a, 0x07, 0x12, 0x80, 0xe2, 0xeb, 0x27, 0xb2, 0x75,
  0x09, 0x83, 0x2c, 0x1a, 0x1b, 0x6e, 0x5a, 0xa0, 0x52, 0x3b, 0xd6, 0xb3, 0x29, 0xe3, 0x2f, 0x84,
  0x53, 0xd1, 0x00, 0xed, 0x20, 0xfc, 0xb1, 0x5b, 0x6a, 0xcb, 0xbe, 0x39, 0x4a, 0x4c, 0x58, 0xcf,
  0xd0, 0xef, 0xaa, 0xfb, 0x43, 0x4d, 0x33, 0x85, 0x45, 0xf9, 0x02, 0x7f, 0x50, 0x3c, 0x9f, 0xa8,
  0x51, 0xa3, 0x40, 0x8f, 0x92, 0x9d, 0x38, 0xf5, 0xbc, 0xb6, 0xda, 0x21, 0x10, 0xff, 0xf3, 0xd2,
  0xcd, 0x0c, 0x13, 0xec, 0x5f, 0x97, 0x44, 0x17, 0xc4, 0xa7, 0x7e, 0x3d, 0x64, 0x5d, 0x19, 0x73,
  0x60, 0x81, 0x4f, 0xdc, 0x22, 0x2a, 0x90, 0x88, 0x46, 0xee, 0xb8, 0x14, 0xde, 0x5e, 0x0b, 0xdb,
  0xe0, 0x32, 0x3a, 0x0a, 0x49, 0x06, 0x24, 0x5c, 0xc2, 0xd3, 0xac, 0x62, 0x91, 0x95, 0xe4, 0x79,
  0xe7, 0xc8, 0x37, 0x6d, 0x8d, 0xd5, 0x4e, 0xa9, 0x6c, 0x56, 0xf4, 0xea, 0x65, 0x7a, 0xae, 0x08,
  0xba, 0x78, 0x25, 0x2e, 0x1c, 0xa6, 0xb4, 0xc6, 0xe8, 0xdd, 0x74, 0x1f, 0x4b, 0xbd, 0x8b, 0x8a,
  0x70, 0x3e, 0xb5, 0x66, 0x48, 0x03, 0xf6, 0x0e, 0x61, 0x35, 0x57, 0xb9, 0x86, 0xc1, 0x1d, 0x9e,
  0xe1, 0xf8, 0x98, 0x11, 0x69, 0xd9, 0x8e, 0x94, 0x9b, 0x1e, 0x87, 0xe9, 0xce, 0x55, 0x28, 0xdf,
  0x8c, 0xa1, 0x89, 0x0d, 0xbf, 0xe6, 0x42, 0x68, 0x41, 0x99, 0x2d, 0x0f, 0xb0, 0x54, 0xbb, 0x16]

/-- From constants.py: INV_S_BOX, the inverse S-box (256 entries). -/
def INV_S_BOX : List Nat := [
  0x52, 0x09, 0x6a, 0xd5, 0x30, 0x36, 0xa5, 0x38, 0xbf, 0x40, 0xa3, 0x9e, 0x81, 0xf3, 0xd7, 0xfb,
  0x7c, 0xe3, 0x39, 0x82, 0x9b, 0x2f, 0xff, 0x87, 0x34, 0x8e, 0x43, 0x44, 0xc4, 0xde, 0xe9, 0xcb,
  0x54, 0x7b, 0x94, 0x32, 0xa6, 0xc2, 0x23, 0x3d, 0xee, 0x4c, 0x95, 0x0b, 0x42, 0xfa, 0xc3, 0x4e,
  0x08, 0x2e, 0xa1, 0x66, 0x28, 0xd9, 0x24, 0xb2, 0x76, 0x5b, 0xa2, 0x49, 0x6d, 0x8b, 0xd1, 0x25,
  0x72, 0xf8, 0xf6, 0x64, 0x86, 0x68, 0x98, 0x16, 0xd4, 0xa4, 0x5c, 0xcc, 0x5d, 0x65, 0xb6, 0x92,
  0x6c, 0x70, 0x48, 0x50, 0xfd, 0xed, 0xb9, 0xda, 0x5e, 0x15, 0x46, 0x57, 0xa7, 0x8d, 0x9d, 0x84,
  0x90, 0xd8, 0xab, 0x00, 0x8c, 0xbc, 0xd3, 0x0a, 0xf7, 0xe4, 0x58, 0x05, 0xb8, 0xb3, 0x45, 0x06,
  0xd0, 0x2c, 0x1e, 0x8f, 0xca, 0x3f, 0x0f, 0x02, 0xc1, 0xaf, 0xbd, 0x03, 0x01, 0x13, 0x8a, 0x6b,
  0x3a, 0x91, 0x11, 0x41, 0x4f, 0x67, 0xdc, 0xea, 0x97, 0xf2, 0xcf, 0xce, 0xf0, 0xb4, 0xe6, 0x73,
  0x96, 0xac, 0x74, 0x22, 0xe7, 0xad, 0x35, 0x85, 0xe2, 0xf9, 0x37, 0xe8, 0x1c, 0x75, 0xdf, 0x6e,
  0x47, 0xf1, 0x1a, 0x71, 0x1d, 0x29, 0xc5, 0x89, 0x6f, 0xb7, 0x62, 0x0e, 0xaa, 0x18, 0xbe, 0x1b,
  0xfc, 0x56, 0x3e, 0x4b, 0xc6, 0xd2, 0x79, 0x20, 0x9a, 0xdb, 0xc0, 0xfe, 0x78, 0xcd, 0x5a, 0xf4,
  0x1f, 0xdd, 0xa8, 0x33, 0x88, 0x07, 0xc7, 0x31, 0xb1, 0x12, 0x10, 0x59, 0x27, 0x80, 0xec, 0x5f,
  0x60, 0x51, 0x7f, 0xa9, 0x19, 0xb5, 0x4a, 0x0d, 0x2d, 0xe5, 0x7a, 0x9f, 0x93, 0xc9, 0x9c, 0xef,
  0xa0, 0xe0, 0x3b, 0x4d, 0xae, 0x2a, 0xf5, 0xb0, 0xc8, 0xeb, 0xbb, 0x3c, 0x83, 0x53, 0x99, 0x61,
  0x17, 0x2b, 0x04, 0x7e, 0xba, 0x77, 0xd6, 0x26, 0xe1, 0x69, 0x14, 0x63, 0x55, 0x21, 0x0c, 0x7d]

/-- From constants.py: RCON_TABLE = bytearray.fromhex of 01020408102040801b36. -/
def RCON_TABLE : List Nat := [0x01, 0x02, 0x04, 0x08, 0x10, 0x20, 0x40, 0x80, 0x1b, 0x36]

/-- aes.py, xtime: multiply a byte by x in GF(2^8); Python truthiness of
a & 0x80 is the test against 0. -/
def xtime (a : Nat) : Nat :=
  if a &&& 0x80 ≠ 0 then ((a <<< 1) ^^^ 0x1B) &&& 0xFF else a <<< 1

/-- aes.py, mix_column: the in-place update reads only the values the column
held on entry (c_0 saves col 0 before it is overwritten), so it computes
this simultaneous assignment. Non-4-length columns would raise in Python. -/
def mix_column (col : List Nat) : List Nat :=
  match col with
  | [c0, c1, c2, c3] =>
      let all_xor := c0 ^^^ c1 ^^^ c2 ^^^ c3
      [c0 ^^^ (all_xor ^^^ xtime (c0 ^^^ c1)),
       c1 ^^^ (all_xor ^^^ xtime (c1 ^^^ c2)),
       c2 ^^^ (all_xor ^^^ xtime (c2 ^^^ c3)),
       c3 ^^^ (all_xor ^^^ xtime (c0 ^^^ c3))]
  | _ => col

/-- aes.py, mix_columns: mix_column applied to each entry of the outer list
(the source iterates "for col in state", i.e. over the first index). -/
def mix_columns (state : List (List Nat)) : List (List Nat) :=
  state.map mix_column

/-- aes.py, shift_rows: three simultaneous tuple assignments that rotate,
for each fixed second index j in 1..3, the entries state[0][j]..state[3][j]
upward by j; written out on the 4x4 shape the code requires. -/
def shift_rows (state : List (List Nat)) : List (List Nat) :=
  match state with
  | [[a0, a1, a2, a3], [b0, b1, b2, b3], [c0, c1, c2, c3], [d0, d1, d2, d3]] =>
      [[a0, b1, c2, d3], [b0, c1, d2, a3], [c0, d1, a2, b3], [d0, a1, b2, c3]]
  | _ => state

/-- aes.py, inv_shift_rows: the inverse tuple assignments. -/
def inv_shift_rows (state : List (List Nat)) : List (List Nat) :=
  match state with
  | [[a0, a1, a2, a3], [b0, b1, b2, b3], [c0, c1, c2, c3], [d0, d1, d2, d3]] =>
      [[a0, d1, c2, b3], [b0, a1, d2, c3], [c0, b1, a2, d3], [d0, c1, b2, a3]]
  | _ => state

/-- aes.py, sub_bytes: every byte replaced by its S-box image; the
comprehension runs over range(len(state[0])) columns for each row. -/
def sub_bytes (state : List (List Nat)) : List (List Nat) :=
  state.map (fun row =>
    (List.range (state.headD []).length).map (fun column =>
      AES_S_BOX.getD (row.getD column 0) 0))

/-- aes.py, inv_sub_bytes: lookup through the inverse S-box. -/
def inv_sub_bytes (state : List (List Nat)) : List (List Nat) :=
  state.map (fun row =>
    (List.range (state.headD []).length).map (fun column =>
      INV_S_BOX.getD (row.getD column 0) 0))

/-- aes.py, add_round_key: XOR the state with key_schedule[round],
entry by entry over range(len(state)) x range(len(state[0])). -/
def add_round_key (state : List (List Nat)) (key_schedule : List (List (List Nat)))
    (round : Nat) : List (List Nat) :=
  let round_key := key_schedule.getD round []
  (List.range state.length).map (fun row =>
    (List.range (state.headD []).length).map (fun column =>
      (state.getD row []).getD column 0 ^^^ (round_key.getD row []).getD column 0))

/-- aes.py, xor_bytes: zip truncates at the shorter input, as in Python. -/
def xor_bytes (input_a input_b : List Nat) : List Nat :=
  List.zipWith (fun x y => x ^^^ y) input_a input_b

/-- aes.py, sub_word: S-box applied to each byte of a word. -/
def sub_word (word : List Nat) : List Nat :=
  word.map (fun i => AES_S_BOX.getD i 0)

/-- aes.py, rot_word: word[1:] + word[:1]. -/
def rot_word (word : List Nat) : List Nat :=
  word.drop 1 ++ word.take 1

/-- Python list indexing l[i] with an int index: a negative index counts
from the end of the list, an index out of range raises IndexError (none). -/
def pyIndex (l : List Nat) (i : Int) : Option Nat :=
  if 0 ≤ i then
    if i.toNat < l.length then some (l.getD i.toNat 0) else none
  else
    if (-i).toNat ≤ l.length then some (l.getD (l.length - (-i).toNat) 0) else none

/-- aes.py, rcon: bytes([RCON_TABLE[value - 1], 0, 0, 0]), with full Python
indexing semantics for RCON_TABLE[value - 1]. -/
def rcon (value : Int) : Option (List Nat) :=
  (pyIndex RCON_TABLE (value - 1)).map (fun x => [x, 0, 0, 0])

/-- aes.py: the dict lookup {128: 10, 192: 12, 256: 14}[key_bit_length],
raising KeyError (none) for any other key bit length. -/
def numberRoundsOf (key_bit_length : Nat) : Option Nat :=
  if key_bit_length = 128 then some 10
  else if key_bit_length = 192 then some 12
  else if key_bit_length = 256 then some 14
  else none

/-- aes.py, bytes_to_state: [data[i * 4 : (i + 1) * 4] for i in range(len(data) // 4)]. -/
def bytes_to_state (data : List Nat) : List (List Nat) :=
  (List.range (data.length / 4)).map (fun i => (data.drop (i * 4)).take 4)

/-- aes.py, state_to_bytes: bytes(state[0] + state[1] + state[2] + state[3]);
the code indexes the first four rows (fewer rows would raise in Python). -/
def state_to_bytes (state : List (List Nat)) : List Nat :=
  state.getD 0 [] ++ state.getD 1 [] ++ state.getD 2 [] ++ state.getD 3 []

/-- aes.py, the body of one iteration of the key_expansion loop at index i:
temp = w[i-1], conditionally transformed, then w grows by
xor_bytes(w[i - number_keys], temp). The rcon call can raise (none). -/
def expansionStep (number_keys : Nat) (w : List (List Nat)) (i : Nat) :
    Option (List (List Nat)) := do
  let temp := w.getD (i - 1) []
  let temp ←
    if i % number_keys = 0 then do
      let rc ← rcon ((i / number_keys : Nat) : Int)
      pure (xor_bytes (sub_word (rot_word temp)) rc)
    else if number_keys > 6 ∧ i % number_keys = 4 then
      pure (sub_word temp)
    else
      pure temp
  pure (w ++ [xor_bytes (w.getD (i - number_keys) []) temp])

/-- aes.py, key_expansion: seed with the words of the key (bytes_to_state),
loop i from number_keys to number_bytes * (number_rounds + 1) - 1, then
group the flat word list into 4-word round keys. -/
def key_expansion (key : List Nat) (number_bytes : Nat := 4) :
    Option (List (List (List Nat))) := do
  let number_keys := key.length / 4
  let key_bit_length := key.length * 8
  let number_rounds ← numberRoundsOf key_bit_length
  let w0 := bytes_to_state key
  let w ← (List.range' number_keys (number_bytes * (number_rounds + 1) - number_keys)).foldlM
    (expansionStep number_keys) w0
  pure ((List.range (w.length / 4)).map (fun i => (w.drop (i * 4)).take 4))

/-- aes.py, the body of one iteration of the encryption loop: SubBytes,
ShiftRows, MixColumns, AddRoundKey(round). -/
def encryption_round (key_schedule : List (List (List Nat)))
    (s : List (List Nat)) (round : Nat) : List (List Nat) :=
  add_round_key (mix_columns (shift_rows (sub_bytes s))) key_schedule round

/-- aes.py, encryption: AddRoundKey(0); rounds 1..Nr-1 of SubBytes,
ShiftRows, MixColumns, AddRoundKey; final round of SubBytes, ShiftRows,
AddRoundKey(Nr). The dict lookup of the round count comes first and
rejects unsupported key lengths. -/
def encryption (data key : List Nat) : Option (List Nat) := do
  let number_rounds ← numberRoundsOf (key.length * 8)
  let state := bytes_to_state data
  let key_schedule ← key_expansion key
  let state := add_round_key state key_schedule 0
  let state := (List.range' 1 (number_rounds - 1)).foldl (encryption_round key_schedule) state
  let state := add_round_key (shift_rows (sub_bytes state)) key_schedule number_rounds
  pure (state_to_bytes state)

/-- aes.py, xtimes_0e: multiplication by 0x0e built from xtime. -/
def xtimes_0e (b : Nat) : Nat := xtime (xtime (xtime b ^^^ b) ^^^ b)

/-- aes.py, xtimes_0b. -/
def xtimes_0b (b : Nat) : Nat := xtime (xtime (xtime b) ^^^ b) ^^^ b

/-- aes.py, xtimes_0d. -/
def xtimes_0d (b : Nat) : Nat := xtime (xtime (xtime b ^^^ b)) ^^^ b

/-- aes.py, xtimes_09. -/
def xtimes_09 (b : Nat) : Nat := xtime (xtime (xtime b)) ^^^ b

/-- aes.py, inv_mix_column: the four original entries are saved first, so
the update is a simultaneous assignment. -/
def inv_mix_column (col : List Nat) : List Nat :=
  match col with
  | [c0, c1, c2, c3] =>
      [xtimes_0e c0 ^^^ xtimes_0b c1 ^^^ xtimes_0d c2 ^^^ xtimes_09 c3,
       xtimes_09 c0 ^^^ xtimes_0e c1 ^^^ xtimes_0b c2 ^^^ xtimes_0d c3,
       xtimes_0d c0 ^^^ xtimes_09 c1 ^^^ xtimes_0e c2 ^^^ xtimes_0b c3,
       xtimes_0b c0 ^^^ xtimes_0d c1 ^^^ xtimes_09 c2 ^^^ xtimes_0e c3]
  | _ => col

/-- aes.py, inv_mix_columns: inv_mix_column on each entry of the outer list. -/
def inv_mix_columns (state : List (List Nat)) : List (List Nat) :=
  state.map inv_mix_column

/-- aes.py, the body of one iteration of the decryption loop: InvShiftRows,
InvSubBytes, AddRoundKey(round), InvMixColumns. -/
def decryption_round (key_schedule : List (List (List Nat)))
    (s : List (List Nat)) (round : Nat) : List (List Nat) :=
  inv_mix_columns (add_round_key (inv_sub_bytes (inv_shift_rows s)) key_schedule round)

/-- aes.py, decryption: AddRoundKey(Nr); rounds Nr-1 down to 1 of
InvShiftRows, InvSubBytes, AddRoundKey, InvMixColumns; final
InvShiftRows, InvSubBytes, AddRoundKey(0). -/
def decryption (cipher key : List Nat) : Option (List Nat) := do
  let number_rounds ← numberRoundsOf (key.length * 8)
  let state := bytes_to_state cipher
  let key_schedule ← key_expansion key
  let state := add_round_key state key_schedule number_rounds
  let state := ((List.range' 1 (number_rounds - 1)).reverse).foldl
    (decryption_round key_schedule) state
  let state := add_round_key (inv_sub_bytes (inv_shift_rows state)) key_schedule 0
  pure (state_to_bytes state)

/-- ecb.py, AES_BLOCK_SIZE. -/
def AES_BLOCK_SIZE : Nat := 16

/-- ecb.py, ecb_encryption: encrypt each of the len(plain) // 16 consecutive
16-byte slices with the same key and concatenate the outputs in order. -/
def ecb_encryption (plain key : List Nat) : Option (List Nat) := do
  let cipher ← (List.range (plain.length / AES_BLOCK_SIZE)).mapM
    (fun j => encryption ((plain.drop (j * AES_BLOCK_SIZE)).take AES_BLOCK_SIZE) key)
  pure cipher.flatten

/-- ecb.py, ecb_decryption: the mirror of ecb_encryption with decryption. -/
def ecb_decryption (cipher key : List Nat) : Option (List Nat) := do
  let plain ← (List.range (cipher.length / AES_BLOCK_SIZE)).mapM
    (fun j => decryption ((cipher.drop (j * AES_BLOCK_SIZE)).take AES_BLOCK_SIZE) key)
  pure plain.flatten

/-- A byte function that stays in range and distributes over XOR on bytes. -/
def ByteLinear (f : Nat → Nat) : Prop :=
  (∀ a, a < 256 → f a < 256) ∧
  ∀ a b, a < 256 → b < 256 → f (a ^^^ b) = f a ^^^ f b

/-- A well-formed key-schedule word: 4 bytes. -/
def goodWord (w : List Nat) : Prop :=
  w.length = 4 ∧ ∀ b ∈ w, b < 256

/-- Every word of the list is a well-formed word. -/
def goodWords (ws : List (List Nat)) : Prop :=
  ∀ w ∈ ws, goodWord w

/-- Every round key of the schedule consists of well-formed words. -/
def goodSchedule (ks : List (List (List Nat))) : Prop :=
  ∀ rk ∈ ks, goodWords rk

/-- A well-formed state: a 4x4 matrix of bytes. -/
def goodState (s : List (List Nat)) : Prop :=
  s.length = 4 ∧ ∀ row ∈ s, row.length = 4 ∧ ∀ b ∈ row, b < 256

/-! ### Destructuring helpers -/

theorem exists_len_four {α : Type} : ∀ (l : List α), l.length = 4 →
    ∃ a b c d, l = [a, b, c, d]
  | [a, b, c, d], _ => ⟨a, b, c, d, rfl⟩
  | [], h => by simp only [List.length_nil] at h; omega
  | [_], h => by simp only [List.length_cons, List.length_nil] at h; omega
  | [_, _], h => by simp only [List.length_cons, List.length_nil] at h; omega
  | [_, _, _], h => by simp only [List.length_cons, List.length_nil] at h; omega
  | _ :: _ :: _ :: _ :: _ :: _, h => by
      simp only [List.length_cons] at h; omega

theorem exists_len_sixteen {α : Type} (l : List α) (h : l.length = 16) :
    ∃ b0 b1 b2 b3 b4 b5 b6 b7 b8 b9 b10 b11 b12 b13 b14 b15,
      l = [b0, b1, b2, b3, b4, b5, b6, b7, b8, b9, b10, b11, b12, b13, b14, b15] := by
  obtain ⟨b0, l, rfl⟩ := List.exists_of_length_succ l h
  simp only [List.length_cons] at h
  obtain ⟨b1, l, rfl⟩ := List.exists_of_length_succ l (show l.length = 14 + 1 by omega)
  simp only [List.length_cons] at h
  obtain ⟨b2, l, rfl⟩ := List.exists_of_length_succ l (show l.length = 13 + 1 by omega)
  simp only [List.length_cons] at h
  obtain ⟨b3, l, rfl⟩ := List.exists_of_length_succ l (show l.length = 12 + 1 by omega)
  simp only [List.length_cons] at h
  obtain ⟨b4, l, rfl⟩ := List.exists_of_length_succ l (show l.length = 11 + 1 by omega)
  simp only [List.length_cons] at h
  obtain ⟨b5, l, rfl⟩ := List.exists_of_length_succ l (show l.length = 10 + 1 by omega)
  simp only [List.length_cons] at h
  obtain ⟨b6, l, rfl⟩ := List.exists_of_length_succ l (show l.length = 9 + 1 by omega)
  simp only [List.length_cons] at h
  obtain ⟨b7, l, rfl⟩ := List.exists_of_length_succ l (show l.length = 8 + 1 by omega)
  simp only [List.length_cons] at h
  obtain ⟨b8, l, rfl⟩ := List.exists_of_length_succ l (show l.length = 7 + 1 by omega)
  simp only [List.length_cons] at h
  obtain ⟨b9, l, rfl⟩ := List.exists_of_length_succ l (show l.length = 6 + 1 by omega)
  simp only [List.length_cons] at h
  obtain ⟨b10, l, rfl⟩ := List.exists_of_length_succ l (show l.length = 5 + 1 by omega)
  simp only [List.length_cons] at h
  obtain ⟨b11, l, rfl⟩ := List.exists_of_length_succ l (show l.length = 4 + 1 by omega)
  simp only [List.length_cons] at h
  obtain ⟨b12, l, rfl⟩ := List.exists_of_length_succ l (show l.length = 3 + 1 by omega)
  simp only [List.length_cons] at h
  obtain ⟨b13, l, rfl⟩ := List.exists_of_length_succ l (show l.length = 2 + 1 by omega)
  simp only [List.length_cons] at h
  obtain ⟨b14, l, rfl⟩ := List.exists_of_length_succ l (show l.length = 1 + 1 by omega)
  simp only [List.length_cons] at h
  obtain ⟨b15, l, rfl⟩ := List.exists_of_length_succ l (show l.length = 0 + 1 by omega)
  simp only [List.length_cons] at h
  have : l = [] := List.eq_nil_of_length_eq_zero (by omega)
  subst this
  exact ⟨b0, b1, b2, b3, b4, b5, b6, b7, b8, b9, b10, b11, b12, b13, b14, b15, rfl⟩

/-- Unfolding of bytes_to_state on an explicit 16-byte list: four
consecutive 4-byte chunks. -/
theorem bytes_to_state_sixteen (b0 b1 b2 b3 b4 b5 b6 b7 b8 b9 b10 b11 b12 b13 b14 b15 : Nat) :
    bytes_to_state [b0, b1, b2, b3, b4, b5, b6, b7, b8, b9, b10, b11, b12, b13, b14, b15]
    = [[b0, b1, b2, b3], [b4, b5, b6, b7], [b8, b9, b10, b11], [b12, b13, b14, b15]] := by
  unfold bytes_to_state
  rw [show List.length [b0, b1, b2, b3, b4, b5, b6, b7, b8, b9, b10, b11, b12, b13, b14, b15]
      = 16 from rfl]
  rfl

/-! ### Claim C2: the FIPS-197 AES-128 known-answer test -/

/-- Claim C2: encryption of the 16-byte plaintext 00112233445566778899aabbccddeeff
with the 16-byte key 000102030405060708090a0b0c0d0e0f yields exactly the
ciphertext 69c4e0d86a7b0430d8cdb78070b4c55a. -/
theorem encryption_kat_aes128 :
    encryption
      [0x00, 0x11, 0x22, 0x33, 0x44, 0x55, 0x66, 0x77,
       0x88, 0x99, 0xaa, 0xbb, 0xcc, 0xdd, 0xee, 0xff]
      [0x00, 0x01, 0x02, 0x03, 0x04, 0x05, 0x06, 0x07,
       0x08, 0x09, 0x0a, 0x0b, 0x0c, 0x0d, 0x0e, 0x0f]
    = some
      [0x69, 0xc4, 0xe0, 0xd8, 0x6a, 0x7b, 0x04, 0x30,
       0xd8, 0xcd, 0xb7, 0x80, 0x70, 0xb4, 0xc5, 0x5a] := by
  decide

/-! ### Claim C3: bytes_to_state placement -/

/-- Claim C3 as stated is false: bytes_to_state places input byte 4*row + col,
not row + 4*col, at entry row, col. At the input 0, 1, ..., 15 the entry at
row 0, col 1 is 1 while the claimed source position 0 + 4*1 holds 4. -/
theorem bytes_to_state_claim_counterexample :
    ((bytes_to_state (List.range 16)).getD 0 []).getD 1 0
      ≠ (List.range 16).getD (0 + 4 * 1) 0 := by
  decide

/-- Claim C3, amended: for every 16-byte input, bytes_to_state places the
input byte at linear position 4*row + col into entry row, col of the
returned matrix (row-major placement). -/
theorem bytes_to_state_row_major (data : List Nat) (h : data.length = 16)
    (row col : Nat) (hrow : row < 4) (hcol : col < 4) :
    ((bytes_to_state data).getD row []).getD col 0 = data.getD (4 * row + col) 0 := by
  obtain ⟨b0, b1, b2, b3, b4, b5, b6, b7, b8, b9, b10, b11, b12, b13, b14, b15, rfl⟩ :=
    exists_len_sixteen data h
  rw [bytes_to_state_sixteen]
  interval_cases row <;> interval_cases col <;> rfl

/-- Witness for the amended C3 at the input 0, 1, ..., 15, row 1, col 2. -/
theorem bytes_to_state_row_major_witness :
    ((bytes_to_state (List.range 16)).getD 1 []).getD 2 0 = (List.range 16).getD 6 0 :=
  bytes_to_state_row_major (List.range 16) (by decide) 1 2 (by decide) (by decide)

/-! ### Claim C4: shift_rows -/

/-- Claim C4 as stated is false: shift_rows does not rotate along the second
index. On the matrix with rows 0..3, 4..7, 8..11, 12..15 the output entry at
first index 0, second index 1 is 5, while the claim predicts the input entry
at second index (1 + 0) % 4 of the same row, which is 1. -/
theorem shift_rows_claim_counterexample :
    ((shift_rows [[0, 1, 2, 3], [4, 5, 6, 7], [8, 9, 10, 11], [12, 13, 14, 15]]).getD 0 []).getD 1 0
      ≠ (([[0, 1, 2, 3], [4, 5, 6, 7], [8, 9, 10, 11], [12, 13, 14, 15]] :
          List (List Nat)).getD 0 []).getD ((1 + 0) % 4) 0 := by
  decide

/-- Claim C4, amended: for every 4x4 matrix, shift_rows cyclically rotates
along the FIRST index: the output entry at position r, c equals the input
entry at position (r + c) % 4, c. Entries with c = 0 are unchanged; the
state is stored transposed, so the second index plays the AES-row role. -/
theorem shift_rows_first_index_rotation (state : List (List Nat))
    (h4 : state.length = 4) (hrows : ∀ row ∈ state, row.length = 4)
    (r c : Nat) (hr : r < 4) (hc : c < 4) :
    ((shift_rows state).getD r []).getD c 0 = (state.getD ((r + c) % 4) []).getD c 0 := by
  obtain ⟨w, x, y, z, rfl⟩ := exists_len_four state h4
  obtain ⟨p0, p1, p2, p3, rfl⟩ := exists_len_four w (hrows _ (by simp))
  obtain ⟨q0, q1, q2, q3, rfl⟩ := exists_len_four x (hrows _ (by simp))
  obtain ⟨s0, s1, s2, s3, rfl⟩ := exists_len_four y (hrows _ (by simp))
  obtain ⟨t0, t1, t2, t3, rfl⟩ := exists_len_four z (hrows _ (by simp))
  interval_cases r <;> interval_cases c <;> rfl

/-- Witness for the amended C4 at the matrix of the repository's own
shift_rows unit test, r = 1, c = 2. -/
theorem shift_rows_first_index_rotation_witness :
    ((shift_rows [[1, 2, 3, 4], [5, 6, 7, 8], [9, 10, 11, 12], [13, 14, 15, 16]]).getD 1 []).getD 2 0
      = (([[1, 2, 3, 4], [5, 6, 7, 8], [9, 10, 11, 12], [13, 14, 15, 16]] :
          List (List Nat)).getD ((1 + 2) % 4) []).getD 2 0 :=
  shift_rows_first_index_rotation _ (by decide) (by decide) 1 2 (by decide) (by decide)

/-! ### Claim C7: invalid key sizes are rejected before any computation -/

/-- Claim C7: for every key whose byte length is not 16, 24 or 32, both
encryption and decryption fail (the round-count dict lookup raises before
any key schedule or round work), for every input block. -/
theorem invalid_key_size_rejected (data key : List Nat)
    (h16 : key.length ≠ 16) (h24 : key.length ≠ 24) (h32 : key.length ≠ 32) :
    encryption data key = none ∧ decryption data key = none := by
  have hnr : numberRoundsOf (key.length * 8) = none := by
    unfold numberRoundsOf
    have e1 : key.length * 8 ≠ 128 := by omega
    have e2 : key.length * 8 ≠ 192 := by omega
    have e3 : key.length * 8 ≠ 256 := by omega
    simp [e1, e2, e3]
  constructor
  · unfold encryption
    rw [hnr]
    rfl
  · unfold decryption
    rw [hnr]
    rfl

/-- Witness for C7 at a 3-byte key. -/
theorem invalid_key_size_rejected_witness :
    encryption [] [1, 2, 3] = none ∧ decryption [] [1, 2, 3] = none :=
  invalid_key_size_rejected [] [1, 2, 3] (by decide) (by decide) (by decide)

/-! ### Claim C8: rcon fails beyond the table -/

/-- Claim C8: for every index j strictly greater than 10, the round-constant
lookup rcon j raises IndexError (none) instead of returning a value. -/
theorem rcon_rejects_beyond_table (j : Int) (h : 10 < j) : rcon j = none := by
  unfold rcon pyIndex
  have h0 : (0 : Int) ≤ j - 1 := by omega
  have h1 : ¬ ((j - 1).toNat < RCON_TABLE.length) := by
    have hlen : RCON_TABLE.length = 10 := by rfl
    rw [hlen]
    omega
  rw [if_pos h0, if_neg h1]
  rfl

/-- Witness for C8 at j = 11 (the first index past the 10-entry table). -/
theorem rcon_rejects_beyond_table_witness : rcon 11 = none :=
  rcon_rejects_beyond_table 11 (by decide)

/-! ### Claim C10: rcon 0 wraps to the last table entry -/

/-- Claim C10: rcon 0 does not raise; Python index -1 selects the last entry
of RCON_TABLE, so it silently returns the word 0x36, 0, 0, 0. -/
theorem rcon_zero_wraps : rcon 0 = some [0x36, 0, 0, 0] := by decide

/-! ### Claim C9: the state conversions are inverse -/

theorem s2b_b2s (data : List Nat) (h : data.length = 16) :
    state_to_bytes (bytes_to_state data) = data := by
  obtain ⟨b0, b1, b2, b3, b4, b5, b6, b7, b8, b9, b10, b11, b12, b13, b14, b15, rfl⟩ :=
    exists_len_sixteen data h
  rw [bytes_to_state_sixteen]
  rfl

/-- Claim C9: for every 16-byte input, state_to_bytes (bytes_to_state input)
returns the input unchanged. -/
theorem state_to_bytes_bytes_to_state (data : List Nat) (h : data.length = 16) :
    state_to_bytes (bytes_to_state data) = data :=
  s2b_b2s data h

/-- Witness for C9 at the input 0, 1, ..., 15. -/
theorem state_to_bytes_bytes_to_state_witness :
    state_to_bytes (bytes_to_state (List.range 16)) = List.range 16 :=
  state_to_bytes_bytes_to_state (List.range 16) (by decide)

/-! ### GF(2^8) facts about xtime, by enumeration over the byte range -/

theorem xor_lt_256 {a b : Nat} (ha : a < 256) (hb : b < 256) : a ^^^ b < 256 :=
  Nat.xor_lt_two_pow (n := 8) ha hb

theorem nat_xor_left_comm (a b c : Nat) : a ^^^ (b ^^^ c) = b ^^^ (a ^^^ c) := by
  rw [← Nat.xor_assoc, Nat.xor_comm a b, Nat.xor_assoc]

theorem xtime_lt (a : Nat) (ha : a < 256) : xtime a < 256 := by
  have hall : ((List.range 256).all (fun x => decide (xtime x < 256))) = true := by decide
  exact of_decide_eq_true (List.all_eq_true.mp hall a (List.mem_range.mpr ha))

theorem xtime_xor (a b : Nat) (ha : a < 256) (hb : b < 256) :
    xtime (a ^^^ b) = xtime a ^^^ xtime b := by
  have hall : ((List.range 256).all (fun x => (List.range 256).all (fun y =>
      xtime (x ^^^ y) == xtime x ^^^ xtime y))) = true := by decide
  exact eq_of_beq
    (List.all_eq_true.mp (List.all_eq_true.mp hall a (List.mem_range.mpr ha)) b
      (List.mem_range.mpr hb))

theorem byteLinear_id : ByteLinear (fun a => a) :=
  ⟨fun _ h => h, fun _ _ _ _ => rfl⟩

theorem byteLinear_comp {f g : Nat → Nat} (hf : ByteLinear f) (hg : ByteLinear g) :
    ByteLinear (fun a => f (g a)) :=
  ⟨fun a ha => hf.1 _ (hg.1 a ha),
   fun a b ha hb => by
     simp only []
     rw [hg.2 a b ha hb, hf.2 _ _ (hg.1 a ha) (hg.1 b hb)]⟩

theorem byteLinear_xorc {f g : Nat → Nat} (hf : ByteLinear f) (hg : ByteLinear g) :
    ByteLinear (fun a => f a ^^^ g a) :=
  ⟨fun a ha => xor_lt_256 (hf.1 a ha) (hg.1 a ha),
   fun a b ha hb => by
     simp only []
     rw [hf.2 a b ha hb, hg.2 a b ha hb]
     simp [Nat.xor_assoc, Nat.xor_comm, nat_xor_left_comm]⟩

theorem byteLinear_xtime : ByteLinear xtime :=
  ⟨xtime_lt, xtime_xor⟩

theorem byteLinear_0e : ByteLinear xtimes_0e := by
  have h : ByteLinear (fun b => xtime (xtime (xtime b ^^^ b) ^^^ b)) :=
    byteLinear_comp byteLinear_xtime
      (byteLinear_xorc
        (byteLinear_comp byteLinear_xtime (byteLinear_xorc byteLinear_xtime byteLinear_id))
        byteLinear_id)
  exact h

theorem byteLinear_0b : ByteLinear xtimes_0b := by
  have h : ByteLinear (fun b => xtime (xtime (xtime b) ^^^ b) ^^^ b) :=
    byteLinear_xorc
      (byteLinear_comp byteLinear_xtime
        (byteLinear_xorc (byteLinear_comp byteLinear_xtime byteLinear_xtime) byteLinear_id))
      byteLinear_id
  exact h

theorem byteLinear_0d : ByteLinear xtimes_0d := by
  have h : ByteLinear (fun b => xtime (xtime (xtime b ^^^ b)) ^^^ b) :=
    byteLinear_xorc
      (byteLinear_comp byteLinear_xtime
        (byteLinear_comp byteLinear_xtime (byteLinear_xorc byteLinear_xtime byteLinear_id)))
      byteLinear_id
  exact h

theorem byteLinear_09 : ByteLinear xtimes_09 := by
  have h : ByteLinear (fun b => xtime (xtime (xtime b)) ^^^ b) :=
    byteLinear_xorc
      (byteLinear_comp byteLinear_xtime (byteLinear_comp byteLinear_xtime byteLinear_xtime))
      byteLinear_id
  exact h

/-! ### MixColumns and InvMixColumns are mutually inverse -/

theorem mix_column_xor (a0 a1 a2 a3 b0 b1 b2 b3 : Nat)
    (ha0 : a0 < 256) (ha1 : a1 < 256) (ha2 : a2 < 256) (ha3 : a3 < 256)
    (hb0 : b0 < 256) (hb1 : b1 < 256) (hb2 : b2 < 256) (hb3 : b3 < 256) :
    mix_column [a0 ^^^ b0, a1 ^^^ b1, a2 ^^^ b2, a3 ^^^ b3]
      = xor_bytes (mix_column [a0, a1, a2, a3]) (mix_column [b0, b1, b2, b3]) := by
  have e01 : (a0 ^^^ b0) ^^^ (a1 ^^^ b1) = (a0 ^^^ a1) ^^^ (b0 ^^^ b1) := by
    simp [Nat.xor_assoc, Nat.xor_comm, nat_xor_left_comm]
  have e12 : (a1 ^^^ b1) ^^^ (a2 ^^^ b2) = (a1 ^^^ a2) ^^^ (b1 ^^^ b2) := by
    simp [Nat.xor_assoc, Nat.xor_comm, nat_xor_left_comm]
  have e23 : (a2 ^^^ b2) ^^^ (a3 ^^^ b3) = (a2 ^^^ a3) ^^^ (b2 ^^^ b3) := by
    simp [Nat.xor_assoc, Nat.xor_comm, nat_xor_left_comm]
  have e03 : (a0 ^^^ b0) ^^^ (a3 ^^^ b3) = (a0 ^^^ a3) ^^^ (b0 ^^^ b3) := by
    simp [Nat.xor_assoc, Nat.xor_comm, nat_xor_left_comm]
  simp only [mix_column, xor_bytes, List.zipWith, List.cons.injEq, eq_self_iff_true, and_true]
  refine ⟨?_, ?_, ?_, ?_⟩
  · rw [e01, xtime_xor _ _ (xor_lt_256 ha0 ha1) (xor_lt_256 hb0 hb1)]
    simp [Nat.xor_assoc, Nat.xor_comm, nat_xor_left_comm]
  · rw [e12, xtime_xor _ _ (xor_lt_256 ha1 ha2) (xor_lt_256 hb1 hb2)]
    simp [Nat.xor_assoc, Nat.xor_comm, nat_xor_left_comm]
  · rw [e23, xtime_xor _ _ (xor_lt_256 ha2 ha3) (xor_lt_256 hb2 hb3)]
    simp [Nat.xor_assoc, Nat.xor_comm, nat_xor_left_comm]
  · rw [e03, xtime_xor _ _ (xor_lt_256 ha0 ha3) (xor_lt_256 hb0 hb3)]
    simp [Nat.xor_assoc, Nat.xor_comm, nat_xor_left_comm]

theorem inv_mix_column_xor (a0 a1 a2 a3 b0 b1 b2 b3 : Nat)
    (ha0 : a0 < 256) (ha1 : a1 < 256) (ha2 : a2 < 256) (ha3 : a3 < 256)
    (hb0 : b0 < 256) (hb1 : b1 < 256) (hb2 : b2 < 256) (hb3 : b3 < 256) :
    inv_mix_column [a0 ^^^ b0, a1 ^^^ b1, a2 ^^^ b2, a3 ^^^ b3]
      = xor_bytes (inv_mix_column [a0, a1, a2, a3]) (inv_mix_column [b0, b1, b2, b3]) := by
  simp only [inv_mix_column, xor_bytes, List.zipWith]
  rw [byteLinear_0e.2 a0 b0 ha0 hb0, byteLinear_0b.2 a1 b1 ha1 hb1,
      byteLinear_0d.2 a2 b2 ha2 hb2, byteLinear_09.2 a3 b3 ha3 hb3,
      byteLinear_09.2 a0 b0 ha0 hb0, byteLinear_0e.2 a1 b1 ha1 hb1,
      byteLinear_0b.2 a2 b2 ha2 hb2, byteLinear_0d.2 a3 b3 ha3 hb3,
      byteLinear_0d.2 a0 b0 ha0 hb0, byteLinear_09.2 a1 b1 ha1 hb1,
      byteLinear_0e.2 a2 b2 ha2 hb2, byteLinear_0b.2 a3 b3 ha3 hb3,
      byteLinear_0b.2 a0 b0 ha0 hb0, byteLinear_0d.2 a1 b1 ha1 hb1,
      byteLinear_09.2 a2 b2 ha2 hb2, byteLinear_0e.2 a3 b3 ha3 hb3]
  simp [Nat.xor_assoc, Nat.xor_comm, nat_xor_left_comm]

theorem mix_column_mem_lt (c0 c1 c2 c3 : Nat)
    (h0 : c0 < 256) (h1 : c1 < 256) (h2 : c2 < 256) (h3 : c3 < 256) :
    ∀ x ∈ mix_column [c0, c1, c2, c3], x < 256 := by
  have hall : c0 ^^^ c1 ^^^ c2 ^^^ c3 < 256 :=
    xor_lt_256 (xor_lt_256 (xor_lt_256 h0 h1) h2) h3
  intro x hx
  simp only [mix_column, List.mem_cons, List.not_mem_nil, or_false] at hx
  rcases hx with rfl | rfl | rfl | rfl
  · exact xor_lt_256 h0 (xor_lt_256 hall (xtime_lt _ (xor_lt_256 h0 h1)))
  · exact xor_lt_256 h1 (xor_lt_256 hall (xtime_lt _ (xor_lt_256 h1 h2)))
  · exact xor_lt_256 h2 (xor_lt_256 hall (xtime_lt _ (xor_lt_256 h2 h3)))
  · exact xor_lt_256 h3 (xor_lt_256 hall (xtime_lt _ (xor_lt_256 h0 h3)))

theorem mc_inv_basis (v : Nat) (hv : v < 256) :
    inv_mix_column (mix_column [v, 0, 0, 0]) = [v, 0, 0, 0] ∧
    inv_mix_column (mix_column [0, v, 0, 0]) = [0, v, 0, 0] ∧
    inv_mix_column (mix_column [0, 0, v, 0]) = [0, 0, v, 0] ∧
    inv_mix_column (mix_column [0, 0, 0, v]) = [0, 0, 0, v] := by
  have hall : ((List.range 256).all (fun x =>
      (inv_mix_column (mix_column [x, 0, 0, 0]) == [x, 0, 0, 0]) &&
      (inv_mix_column (mix_column [0, x, 0, 0]) == [0, x, 0, 0]) &&
      (inv_mix_column (mix_column [0, 0, x, 0]) == [0, 0, x, 0]) &&
      (inv_mix_column (mix_column [0, 0, 0, x]) == [0, 0, 0, x]))) = true := by decide
  have h := List.all_eq_true.mp hall v (List.mem_range.mpr hv)
  simp only [Bool.and_eq_true, beq_iff_eq] at h
  exact ⟨h.1.1.1, h.1.1.2, h.1.2, h.2⟩

theorem inv_mix_mix_column_xor (a0 a1 a2 a3 b0 b1 b2 b3 : Nat)
    (ha0 : a0 < 256) (ha1 : a1 < 256) (ha2 : a2 < 256) (ha3 : a3 < 256)
    (hb0 : b0 < 256) (hb1 : b1 < 256) (hb2 : b2 < 256) (hb3 : b3 < 256) :
    inv_mix_column (mix_column [a0 ^^^ b0, a1 ^^^ b1, a2 ^^^ b2, a3 ^^^ b3])
      = xor_bytes (inv_mix_column (mix_column [a0, a1, a2, a3]))
                  (inv_mix_column (mix_column [b0, b1, b2, b3])) := by
  rw [mix_column_xor a0 a1 a2 a3 b0 b1 b2 b3 ha0 ha1 ha2 ha3 hb0 hb1 hb2 hb3]
  obtain ⟨u0, u1, u2, u3, hu⟩ := exists_len_four (mix_column [a0, a1, a2, a3]) rfl
  obtain ⟨v0, v1, v2, v3, hv⟩ := exists_len_four (mix_column [b0, b1, b2, b3]) rfl
  have hU := mix_column_mem_lt a0 a1 a2 a3 ha0 ha1 ha2 ha3
  have hV := mix_column_mem_lt b0 b1 b2 b3 hb0 hb1 hb2 hb3
  rw [hu] at hU
  rw [hv] at hV
  rw [hu, hv]
  have e : xor_bytes [u0, u1, u2, u3] [v0, v1, v2, v3]
      = [u0 ^^^ v0, u1 ^^^ v1, u2 ^^^ v2, u3 ^^^ v3] := rfl
  rw [e]
  exact inv_mix_column_xor u0 u1 u2 u3 v0 v1 v2 v3
    (hU u0 (by simp)) (hU u1 (by simp)) (hU u2 (by simp)) (hU u3 (by simp))
    (hV v0 (by simp)) (hV v1 (by simp)) (hV v2 (by simp)) (hV v3 (by simp))

theorem inv_mix_column_mix_column_id (c0 c1 c2 c3 : Nat)
    (h0 : c0 < 256) (h1 : c1 < 256) (h2 : c2 < 256) (h3 : c3 < 256) :
    inv_mix_column (mix_column [c0, c1, c2, c3]) = [c0, c1, c2, c3] := by
  have hz : (0 : Nat) < 256 := by omega
  have f1 : inv_mix_column (mix_column [c0, c1, c2, c3])
      = xor_bytes (inv_mix_column (mix_column [c0, 0, 0, 0]))
                  (inv_mix_column (mix_column [0, c1, c2, c3])) := by
    have h := inv_mix_mix_column_xor c0 0 0 0 0 c1 c2 c3 h0 hz hz hz hz h1 h2 h3
    simpa using h
  have f2 : inv_mix_column (mix_column [0, c1, c2, c3])
      = xor_bytes (inv_mix_column (mix_column [0, c1, 0, 0]))
                  (inv_mix_column (mix_column [0, 0, c2, c3])) := by
    have h := inv_mix_mix_column_xor 0 c1 0 0 0 0 c2 c3 hz h1 hz hz hz hz h2 h3
    simpa using h
  have f3 : inv_mix_column (mix_column [0, 0, c2, c3])
      = xor_bytes (inv_mix_column (mix_column [0, 0, c2, 0]))
                  (inv_mix_column (mix_column [0, 0, 0, c3])) := by
    have h := inv_mix_mix_column_xor 0 0 c2 0 0 0 0 c3 hz hz h2 hz hz hz hz h3
    simpa using h
  rw [f1, f2, f3, (mc_inv_basis c0 h0).1, (mc_inv_basis c1 h1).2.1,
      (mc_inv_basis c2 h2).2.2.1, (mc_inv_basis c3 h3).2.2.2]
  simp [xor_bytes]

/-! ### Claim C5 -/

theorem inv_mix_mix_goodState (state : List (List Nat))
    (h4 : state.length = 4)
    (hrows : ∀ row ∈ state, row.length = 4 ∧ ∀ b ∈ row, b < 256) :
    inv_mix_columns (mix_columns state) = state := by
  obtain ⟨w, x, y, z, rfl⟩ := exists_len_four state h4
  obtain ⟨p0, p1, p2, p3, rfl⟩ := exists_len_four w (hrows _ (by simp)).1
  obtain ⟨q0, q1, q2, q3, rfl⟩ := exists_len_four x (hrows _ (by simp)).1
  obtain ⟨s0, s1, s2, s3, rfl⟩ := exists_len_four y (hrows _ (by simp)).1
  obtain ⟨t0, t1, t2, t3, rfl⟩ := exists_len_four z (hrows _ (by simp)).1
  have hp := (hrows [p0, p1, p2, p3] (by simp)).2
  have hq := (hrows [q0, q1, q2, q3] (by simp)).2
  have hs := (hrows [s0, s1, s2, s3] (by simp)).2
  have ht := (hrows [t0, t1, t2, t3] (by simp)).2
  simp only [mix_columns, inv_mix_columns, List.map]
  rw [inv_mix_column_mix_column_id p0 p1 p2 p3 (hp _ (by simp)) (hp _ (by simp))
        (hp _ (by simp)) (hp _ (by simp)),
      inv_mix_column_mix_column_id q0 q1 q2 q3 (hq _ (by simp)) (hq _ (by simp))
        (hq _ (by simp)) (hq _ (by simp)),
      inv_mix_column_mix_column_id s0 s1 s2 s3 (hs _ (by simp)) (hs _ (by simp))
        (hs _ (by simp)) (hs _ (by simp)),
      inv_mix_column_mix_column_id t0 t1 t2 t3 (ht _ (by simp)) (ht _ (by simp))
        (ht _ (by simp)) (ht _ (by simp))]

/-- Claim C5: for every 4x4 matrix of bytes, applying mix_columns and then
inv_mix_columns returns the original matrix. -/
theorem inv_mix_columns_mix_columns (state : List (List Nat))
    (h4 : state.length = 4)
    (hrows : ∀ row ∈ state, row.length = 4 ∧ ∀ b ∈ row, b < 256) :
    inv_mix_columns (mix_columns state) = state :=
  inv_mix_mix_goodState state h4 hrows

/-- Witness for C5 at a concrete 4x4 byte matrix. -/
theorem inv_mix_columns_mix_columns_witness :
    inv_mix_columns (mix_columns
        [[1, 2, 3, 4], [5, 6, 7, 8], [9, 10, 11, 12], [200, 201, 202, 255]])
      = [[1, 2, 3, 4], [5, 6, 7, 8], [9, 10, 11, 12], [200, 201, 202, 255]] :=
  inv_mix_columns_mix_columns _ (by decide) (by decide)

/-! ### Table lookup bounds and S-box inversion -/

theorem getD_mem_of_lt {α : Type} (l : List α) (i : Nat) (d : α) (h : i < l.length) :
    l.getD i d ∈ l := by
  rw [List.getD_eq_getElem (l := l) (d := d) h]
  exact List.getElem_mem h

theorem getD_lt_256 (l : List Nat) (hl : ∀ x ∈ l, x < 256) (i : Nat) : l.getD i 0 < 256 := by
  by_cases h : i < l.length
  · exact hl _ (getD_mem_of_lt l i 0 h)
  · rw [List.getD_eq_default (l := l) (d := 0) (by omega)]
    omega

theorem sbox_getD_lt (b : Nat) : AES_S_BOX.getD b 0 < 256 :=
  getD_lt_256 AES_S_BOX (by decide) b

theorem inv_sbox_getD_lt (b : Nat) : INV_S_BOX.getD b 0 < 256 :=
  getD_lt_256 INV_S_BOX (by decide) b

theorem inv_sbox_sbox (b : Nat) (hb : b < 256) :
    INV_S_BOX.getD (AES_S_BOX.getD b 0) 0 = b := by
  have hall : ((List.range 256).all
      (fun x => INV_S_BOX.getD (AES_S_BOX.getD x 0) 0 == x)) = true := by decide
  exact eq_of_beq (List.all_eq_true.mp hall b (List.mem_range.mpr hb))

/-! ### Well-formedness of key-schedule words -/

theorem goodWord_xor {a b : List Nat} (ha : goodWord a) (hb : goodWord b) :
    goodWord (xor_bytes a b) := by
  obtain ⟨x0, x1, x2, x3, rfl⟩ := exists_len_four a ha.1
  obtain ⟨y0, y1, y2, y3, rfl⟩ := exists_len_four b hb.1
  refine ⟨rfl, ?_⟩
  intro v hv
  simp only [xor_bytes, List.zipWith, List.mem_cons, List.not_mem_nil, or_false] at hv
  rcases hv with rfl | rfl | rfl | rfl <;>
    exact xor_lt_256 (ha.2 _ (by simp)) (hb.2 _ (by simp))

theorem goodWord_sub_word {w : List Nat} (hw : goodWord w) : goodWord (sub_word w) := by
  refine ⟨by simp [sub_word, hw.1], ?_⟩
  intro b hb
  simp only [sub_word, List.mem_map] at hb
  obtain ⟨x, _, rfl⟩ := hb
  exact sbox_getD_lt x

theorem goodWord_rot_word {w : List Nat} (hw : goodWord w) : goodWord (rot_word w) := by
  obtain ⟨x0, x1, x2, x3, rfl⟩ := exists_len_four w hw.1
  refine ⟨rfl, ?_⟩
  intro b hb
  rw [show rot_word [x0, x1, x2, x3] = [x1, x2, x3, x0] from rfl] at hb
  simp only [List.mem_cons, List.not_mem_nil, or_false] at hb
  rcases hb with rfl | rfl | rfl | rfl <;> exact hw.2 _ (by simp)

theorem rcon_succeeds (j : Nat) (h1 : 1 ≤ j) (h10 : j ≤ 10) :
    ∃ rc, rcon (j : Int) = some rc ∧ goodWord rc := by
  unfold rcon pyIndex
  have h0 : (0 : Int) ≤ (j : Int) - 1 := by omega
  have hlt : ((j : Int) - 1).toNat < RCON_TABLE.length := by
    rw [show RCON_TABLE.length = 10 from rfl]
    omega
  rw [if_pos h0, if_pos hlt]
  refine ⟨_, rfl, rfl, ?_⟩
  intro b hb
  simp only [List.mem_cons, List.not_mem_nil, or_false] at hb
  rcases hb with rfl | rfl | rfl | rfl
  · exact getD_lt_256 RCON_TABLE (by decide) _
  · omega
  · omega
  · omega

theorem goodWords_append {ws : List (List Nat)} {x : List Nat}
    (h : goodWords ws) (hx : goodWord x) : goodWords (ws ++ [x]) := by
  intro w hw
  rcases List.mem_append.mp hw with h1 | h2
  · exact h w h1
  · simp only [List.mem_singleton] at h2
    subst h2
    exact hx

theorem bytes_to_state_length (data : List Nat) :
    (bytes_to_state data).length = data.length / 4 := by
  simp [bytes_to_state]

theorem goodWords_bytes_to_state (data : List Nat) (h4 : data.length % 4 = 0)
    (hb : ∀ b ∈ data, b < 256) : goodWords (bytes_to_state data) := by
  intro w hw
  simp only [bytes_to_state, List.mem_map, List.mem_range] at hw
  obtain ⟨i, hi, rfl⟩ := hw
  constructor
  · rw [List.length_take, List.length_drop]
    omega
  · intro b hbm
    exact hb b (List.mem_of_mem_drop (List.mem_of_mem_take hbm))

/-! ### Entry bounds through default lookups -/

theorem state_entry_lt (s : List (List Nat)) (hs : goodState s) (r c : Nat) :
    (s.getD r []).getD c 0 < 256 := by
  by_cases h1 : r < s.length
  · exact getD_lt_256 _ ((hs.2 _ (getD_mem_of_lt s r [] h1)).2) c
  · rw [List.getD_eq_default (l := s) (d := ([] : List Nat)) (by omega)]
    rw [List.getD_eq_default (l := ([] : List Nat)) (d := 0) (by simp)]
    omega

theorem schedule_entry_lt (ks : List (List (List Nat))) (hks : goodSchedule ks)
    (r row c : Nat) : ((ks.getD r []).getD row []).getD c 0 < 256 := by
  by_cases h1 : r < ks.length
  · have hrk := hks _ (getD_mem_of_lt ks r [] h1)
    by_cases h2 : row < (ks.getD r []).length
    · exact getD_lt_256 _ (hrk _ (getD_mem_of_lt _ row [] h2)).2 c
    · rw [List.getD_eq_default (l := ks.getD r []) (d := ([] : List Nat)) (by omega)]
      rw [List.getD_eq_default (l := ([] : List Nat)) (d := 0) (by simp)]
      omega
  · rw [List.getD_eq_default (l := ks) (d := ([] : List (List Nat))) (by omega)]
    rw [List.getD_eq_default (l := ([] : List (List Nat))) (d := ([] : List Nat)) (by simp)]
    rw [List.getD_eq_default (l := ([] : List Nat)) (d := 0) (by simp)]
    omega

/-! ### Key expansion succeeds and produces well-formed words -/

theorem expansionStep_good {Nk i : Nat} {w : List (List Nat)}
    (hw : goodWords w) (hlen : w.length = i) (hNki : Nk ≤ i) (hNk : 1 ≤ Nk)
    (hrc : i % Nk = 0 → 1 ≤ i / Nk ∧ i / Nk ≤ 10) :
    ∃ w2, expansionStep Nk w i = some w2 ∧ goodWords w2 ∧ w2.length = i + 1 := by
  have htemp : goodWord (w.getD (i - 1) []) :=
    hw _ (getD_mem_of_lt w (i - 1) [] (by omega))
  have hprev : goodWord (w.getD (i - Nk) []) :=
    hw _ (getD_mem_of_lt w (i - Nk) [] (by omega))
  by_cases hc1 : i % Nk = 0
  · obtain ⟨hge, hle⟩ := hrc hc1
    obtain ⟨rc, hrcn, hrcg⟩ := rcon_succeeds (i / Nk) hge hle
    refine ⟨w ++ [xor_bytes (w.getD (i - Nk) [])
      (xor_bytes (sub_word (rot_word (w.getD (i - 1) []))) rc)], ?_, ?_, ?_⟩
    · simp only [expansionStep]
      rw [if_pos hc1, hrcn]
      rfl
    · exact goodWords_append hw
        (goodWord_xor hprev (goodWord_xor (goodWord_sub_word (goodWord_rot_word htemp)) hrcg))
    · simp [hlen]
  · by_cases hc2 : Nk > 6 ∧ i % Nk = 4
    · refine ⟨w ++ [xor_bytes (w.getD (i - Nk) []) (sub_word (w.getD (i - 1) []))], ?_, ?_, ?_⟩
      · simp only [expansionStep]
        rw [if_neg hc1, if_pos hc2]
        rfl
      · exact goodWords_append hw (goodWord_xor hprev (goodWord_sub_word htemp))
      · simp [hlen]
    · refine ⟨w ++ [xor_bytes (w.getD (i - Nk) []) (w.getD (i - 1) [])], ?_, ?_, ?_⟩
      · simp only [expansionStep]
        rw [if_neg hc1, if_neg hc2]
        rfl
      · exact goodWords_append hw (goodWord_xor hprev htemp)
      · simp [hlen]

theorem expansion_fold_good (Nk : Nat) (hNk : 1 ≤ Nk) :
    ∀ (c s : Nat) (w : List (List Nat)), goodWords w → w.length = s → Nk ≤ s →
    (∀ i, s ≤ i → i < s + c → i % Nk = 0 → 1 ≤ i / Nk ∧ i / Nk ≤ 10) →
    ∃ w2, (List.range' s c).foldlM (expansionStep Nk) w = some w2
      ∧ goodWords w2 ∧ w2.length = s + c := by
  intro c
  induction c with
  | zero =>
    intro s w hw hlen _ _
    exact ⟨w, rfl, hw, by omega⟩
  | succ c2 ih =>
    intro s w hw hlen hNks hrc
    obtain ⟨w1, hstep, hw1, hlen1⟩ :=
      expansionStep_good hw hlen hNks hNk (hrc s (by omega) (by omega))
    obtain ⟨w2, hrest, hw2, hlen2⟩ := ih (s + 1) w1 hw1 (by omega) (by omega)
      (fun i h1 h2 => hrc i (by omega) (by omega))
    refine ⟨w2, ?_, hw2, by omega⟩
    rw [show List.range' s (c2 + 1) = s :: List.range' (s + 1) c2 from rfl,
        List.foldlM_cons, hstep]
    exact hrest

theorem goodSchedule_grouping (w : List (List Nat)) (hw : goodWords w) :
    goodSchedule ((List.range (w.length / 4)).map (fun i => (w.drop (i * 4)).take 4)) := by
  intro rk hrk
  simp only [List.mem_map, List.mem_range] at hrk
  obtain ⟨i, _, rfl⟩ := hrk
  intro word hword
  exact hw word (List.mem_of_mem_drop (List.mem_of_mem_take hword))

theorem key_expansion_good (key : List Nat)
    (hkey : key.length = 16 ∨ key.length = 24 ∨ key.length = 32)
    (hb : ∀ b ∈ key, b < 256) :
    ∃ ks, key_expansion key = some ks ∧ goodSchedule ks := by
  have hwords : goodWords (bytes_to_state key) :=
    goodWords_bytes_to_state key (by rcases hkey with h | h | h <;> omega) hb
  have hw0len : (bytes_to_state key).length = key.length / 4 := bytes_to_state_length key
  rcases hkey with h | h | h
  · obtain ⟨w2, hfold_eq, hw2, hlen2⟩ :=
      expansion_fold_good 4 (by omega) 40 4 (bytes_to_state key) hwords
        (by rw [hw0len, h]) (by omega) (fun i h1 h2 _ => by omega)
    have e1 : key_expansion key
        = ((List.range' 4 40).foldlM (expansionStep 4) (bytes_to_state key)) >>=
            (fun w => pure ((List.range (w.length / 4)).map
              (fun i => (w.drop (i * 4)).take 4))) := by
      unfold key_expansion
      rw [h]
      norm_num [numberRoundsOf]
    refine ⟨(List.range (w2.length / 4)).map (fun i => (w2.drop (i * 4)).take 4), ?_,
      goodSchedule_grouping w2 hw2⟩
    rw [e1, hfold_eq]
    rfl
  · obtain ⟨w2, hfold_eq, hw2, hlen2⟩ :=
      expansion_fold_good 6 (by omega) 46 6 (bytes_to_state key) hwords
        (by rw [hw0len, h]) (by omega) (fun i h1 h2 _ => by omega)
    have e1 : key_expansion key
        = ((List.range' 6 46).foldlM (expansionStep 6) (bytes_to_state key)) >>=
            (fun w => pure ((List.range (w.length / 4)).map
              (fun i => (w.drop (i * 4)).take 4))) := by
      unfold key_expansion
      rw [h]
      norm_num [numberRoundsOf]
    refine ⟨(List.range (w2.length / 4)).map (fun i => (w2.drop (i * 4)).take 4), ?_,
      goodSchedule_grouping w2 hw2⟩
    rw [e1, hfold_eq]
    rfl
  · obtain ⟨w2, hfold_eq, hw2, hlen2⟩ :=
      expansion_fold_good 8 (by omega) 52 8 (bytes_to_state key) hwords
        (by rw [hw0len, h]) (by omega) (fun i h1 h2 _ => by omega)
    have e1 : key_expansion key
        = ((List.range' 8 52).foldlM (expansionStep 8) (bytes_to_state key)) >>=
            (fun w => pure ((List.range (w.length / 4)).map
              (fun i => (w.drop (i * 4)).take 4))) := by
      unfold key_expansion
      rw [h]
      norm_num [numberRoundsOf]
    refine ⟨(List.range (w2.length / 4)).map (fun i => (w2.drop (i * 4)).take 4), ?_,
      goodSchedule_grouping w2 hw2⟩
    rw [e1, hfold_eq]
    rfl

/-! ### State well-formedness machinery -/

theorem goodState_destruct (s : List (List Nat)) (hs : goodState s) :
    ∃ p0 p1 p2 p3 q0 q1 q2 q3 u0 u1 u2 u3 t0 t1 t2 t3,
      s = [[p0, p1, p2, p3], [q0, q1, q2, q3], [u0, u1, u2, u3], [t0, t1, t2, t3]] ∧
      (p0 < 256 ∧ p1 < 256 ∧ p2 < 256 ∧ p3 < 256) ∧
      (q0 < 256 ∧ q1 < 256 ∧ q2 < 256 ∧ q3 < 256) ∧
      (u0 < 256 ∧ u1 < 256 ∧ u2 < 256 ∧ u3 < 256) ∧
      (t0 < 256 ∧ t1 < 256 ∧ t2 < 256 ∧ t3 < 256) := by
  obtain ⟨w, x, y, z, rfl⟩ := exists_len_four s hs.1
  obtain ⟨p0, p1, p2, p3, rfl⟩ := exists_len_four w (hs.2 _ (by simp)).1
  obtain ⟨q0, q1, q2, q3, rfl⟩ := exists_len_four x (hs.2 _ (by simp)).1
  obtain ⟨u0, u1, u2, u3, rfl⟩ := exists_len_four y (hs.2 _ (by simp)).1
  obtain ⟨t0, t1, t2, t3, rfl⟩ := exists_len_four z (hs.2 _ (by simp)).1
  have hp := (hs.2 [p0, p1, p2, p3] (by simp)).2
  have hq := (hs.2 [q0, q1, q2, q3] (by simp)).2
  have hu := (hs.2 [u0, u1, u2, u3] (by simp)).2
  have ht := (hs.2 [t0, t1, t2, t3] (by simp)).2
  exact ⟨p0, p1, p2, p3, q0, q1, q2, q3, u0, u1, u2, u3, t0, t1, t2, t3, rfl,
    ⟨hp _ (by simp), hp _ (by simp), hp _ (by simp), hp _ (by simp)⟩,
    ⟨hq _ (by simp), hq _ (by simp), hq _ (by simp), hq _ (by simp)⟩,
    ⟨hu _ (by simp), hu _ (by simp), hu _ (by simp), hu _ (by simp)⟩,
    ⟨ht _ (by simp), ht _ (by simp), ht _ (by simp), ht _ (by simp)⟩⟩

theorem goodState_mk (p0 p1 p2 p3 q0 q1 q2 q3 u0 u1 u2 u3 t0 t1 t2 t3 : Nat)
    (hp0 : p0 < 256) (hp1 : p1 < 256) (hp2 : p2 < 256) (hp3 : p3 < 256)
    (hq0 : q0 < 256) (hq1 : q1 < 256) (hq2 : q2 < 256) (hq3 : q3 < 256)
    (hu0 : u0 < 256) (hu1 : u1 < 256) (hu2 : u2 < 256) (hu3 : u3 < 256)
    (ht0 : t0 < 256) (ht1 : t1 < 256) (ht2 : t2 < 256) (ht3 : t3 < 256) :
    goodState [[p0, p1, p2, p3], [q0, q1, q2, q3], [u0, u1, u2, u3], [t0, t1, t2, t3]] := by
  refine ⟨rfl, ?_⟩
  intro row hrow
  simp only [List.mem_cons, List.not_mem_nil, or_false] at hrow
  rcases hrow with rfl | rfl | rfl | rfl <;>
    · refine ⟨rfl, ?_⟩
      intro b hb
      simp only [List.mem_cons, List.not_mem_nil, or_false] at hb
      rcases hb with rfl | rfl | rfl | rfl <;> assumption

theorem sub_bytes_explicit (p0 p1 p2 p3 q0 q1 q2 q3 u0 u1 u2 u3 t0 t1 t2 t3 : Nat) :
    sub_bytes [[p0, p1, p2, p3], [q0, q1, q2, q3], [u0, u1, u2, u3], [t0, t1, t2, t3]]
      = [[AES_S_BOX.getD p0 0, AES_S_BOX.getD p1 0, AES_S_BOX.getD p2 0, AES_S_BOX.getD p3 0],
         [AES_S_BOX.getD q0 0, AES_S_BOX.getD q1 0, AES_S_BOX.getD q2 0, AES_S_BOX.getD q3 0],
         [AES_S_BOX.getD u0 0, AES_S_BOX.getD u1 0, AES_S_BOX.getD u2 0, AES_S_BOX.getD u3 0],
         [AES_S_BOX.getD t0 0, AES_S_BOX.getD t1 0, AES_S_BOX.getD t2 0, AES_S_BOX.getD t3 0]] :=
  rfl

theorem inv_sub_bytes_explicit (p0 p1 p2 p3 q0 q1 q2 q3 u0 u1 u2 u3 t0 t1 t2 t3 : Nat) :
    inv_sub_bytes [[p0, p1, p2, p3], [q0, q1, q2, q3], [u0, u1, u2, u3], [t0, t1, t2, t3]]
      = [[INV_S_BOX.getD p0 0, INV_S_BOX.getD p1 0, INV_S_BOX.getD p2 0, INV_S_BOX.getD p3 0],
         [INV_S_BOX.getD q0 0, INV_S_BOX.getD q1 0, INV_S_BOX.getD q2 0, INV_S_BOX.getD q3 0],
         [INV_S_BOX.getD u0 0, INV_S_BOX.getD u1 0, INV_S_BOX.getD u2 0, INV_S_BOX.getD u3 0],
         [INV_S_BOX.getD t0 0, INV_S_BOX.getD t1 0, INV_S_BOX.getD t2 0, INV_S_BOX.getD t3 0]] :=
  rfl

theorem add_round_key_explicit (p0 p1 p2 p3 q0 q1 q2 q3 u0 u1 u2 u3 t0 t1 t2 t3 : Nat)
    (ks : List (List (List Nat))) (r : Nat) :
    add_round_key [[p0, p1, p2, p3], [q0, q1, q2, q3], [u0, u1, u2, u3], [t0, t1, t2, t3]] ks r
      = [[p0 ^^^ ((ks.getD r []).getD 0 []).getD 0 0, p1 ^^^ ((ks.getD r []).getD 0 []).getD 1 0,
          p2 ^^^ ((ks.getD r []).getD 0 []).getD 2 0, p3 ^^^ ((ks.getD r []).getD 0 []).getD 3 0],
         [q0 ^^^ ((ks.getD r []).getD 1 []).getD 0 0, q1 ^^^ ((ks.getD r []).getD 1 []).getD 1 0,
          q2 ^^^ ((ks.getD r []).getD 1 []).getD 2 0, q3 ^^^ ((ks.getD r []).getD 1 []).getD 3 0],
         [u0 ^^^ ((ks.getD r []).getD 2 []).getD 0 0, u1 ^^^ ((ks.getD r []).getD 2 []).getD 1 0,
          u2 ^^^ ((ks.getD r []).getD 2 []).getD 2 0, u3 ^^^ ((ks.getD r []).getD 2 []).getD 3 0],
         [t0 ^^^ ((ks.getD r []).getD 3 []).getD 0 0, t1 ^^^ ((ks.getD r []).getD 3 []).getD 1 0,
          t2 ^^^ ((ks.getD r []).getD 3 []).getD 2 0, t3 ^^^ ((ks.getD r []).getD 3 []).getD 3 0]] :=
  rfl

theorem goodState_sub_bytes (s : List (List Nat)) (h4 : s.length = 4)
    (hr : ∀ row ∈ s, row.length = 4) : goodState (sub_bytes s) := by
  obtain ⟨w, x, y, z, rfl⟩ := exists_len_four s h4
  obtain ⟨p0, p1, p2, p3, rfl⟩ := exists_len_four w (hr _ (by simp))
  obtain ⟨q0, q1, q2, q3, rfl⟩ := exists_len_four x (hr _ (by simp))
  obtain ⟨u0, u1, u2, u3, rfl⟩ := exists_len_four y (hr _ (by simp))
  obtain ⟨t0, t1, t2, t3, rfl⟩ := exists_len_four z (hr _ (by simp))
  rw [sub_bytes_explicit]
  exact goodState_mk _ _ _ _ _ _ _ _ _ _ _ _ _ _ _ _
    (sbox_getD_lt _) (sbox_getD_lt _) (sbox_getD_lt _) (sbox_getD_lt _)
    (sbox_getD_lt _) (sbox_getD_lt _) (sbox_getD_lt _) (sbox_getD_lt _)
    (sbox_getD_lt _) (sbox_getD_lt _) (sbox_getD_lt _) (sbox_getD_lt _)
    (sbox_getD_lt _) (sbox_getD_lt _) (sbox_getD_lt _) (sbox_getD_lt _)

theorem goodState_shift_rows (s : List (List Nat)) (hs : goodState s) :
    goodState (shift_rows s) := by
  obtain ⟨p0, p1, p2, p3, q0, q1, q2, q3, u0, u1, u2, u3, t0, t1, t2, t3,
    rfl, hP, hQ, hU, hT⟩ := goodState_destruct s hs
  rw [show shift_rows [[p0, p1, p2, p3], [q0, q1, q2, q3], [u0, u1, u2, u3], [t0, t1, t2, t3]]
      = [[p0, q1, u2, t3], [q0, u1, t2, p3], [u0, t1, p2, q3], [t0, p1, q2, u3]] from rfl]
  exact goodState_mk _ _ _ _ _ _ _ _ _ _ _ _ _ _ _ _
    hP.1 hQ.2.1 hU.2.2.1 hT.2.2.2
    hQ.1 hU.2.1 hT.2.2.1 hP.2.2.2
    hU.1 hT.2.1 hP.2.2.1 hQ.2.2.2
    hT.1 hP.2.1 hQ.2.2.1 hU.2.2.2

theorem goodState_mix_columns (s : List (List Nat)) (hs : goodState s) :
    goodState (mix_columns s) := by
  constructor
  · simp [mix_columns, hs.1]
  · intro row hrow
    simp only [mix_columns, List.mem_map] at hrow
    obtain ⟨orig, horig, rfl⟩ := hrow
    have hgood := hs.2 orig horig
    obtain ⟨c0, c1, c2, c3, rfl⟩ := exists_len_four orig hgood.1
    exact ⟨rfl, mix_column_mem_lt c0 c1 c2 c3 (hgood.2 _ (by simp)) (hgood.2 _ (by simp))
      (hgood.2 _ (by simp)) (hgood.2 _ (by simp))⟩

theorem goodState_add_round_key (s : List (List Nat)) (ks : List (List (List Nat)))
    (r : Nat) (hs : goodState s) (hks : goodSchedule ks) :
    goodState (add_round_key s ks r) := by
  obtain ⟨p0, p1, p2, p3, q0, q1, q2, q3, u0, u1, u2, u3, t0, t1, t2, t3,
    rfl, hP, hQ, hU, hT⟩ := goodState_destruct s hs
  rw [add_round_key_explicit]
  exact goodState_mk _ _ _ _ _ _ _ _ _ _ _ _ _ _ _ _
    (xor_lt_256 hP.1 (schedule_entry_lt ks hks r 0 0))
    (xor_lt_256 hP.2.1 (schedule_entry_lt ks hks r 0 1))
    (xor_lt_256 hP.2.2.1 (schedule_entry_lt ks hks r 0 2))
    (xor_lt_256 hP.2.2.2 (schedule_entry_lt ks hks r 0 3))
    (xor_lt_256 hQ.1 (schedule_entry_lt ks hks r 1 0))
    (xor_lt_256 hQ.2.1 (schedule_entry_lt ks hks r 1 1))
    (xor_lt_256 hQ.2.2.1 (schedule_entry_lt ks hks r 1 2))
    (xor_lt_256 hQ.2.2.2 (schedule_entry_lt ks hks r 1 3))
    (xor_lt_256 hU.1 (schedule_entry_lt ks hks r 2 0))
    (xor_lt_256 hU.2.1 (schedule_entry_lt ks hks r 2 1))
    (xor_lt_256 hU.2.2.1 (schedule_entry_lt ks hks r 2 2))
    (xor_lt_256 hU.2.2.2 (schedule_entry_lt ks hks r 2 3))
    (xor_lt_256 hT.1 (schedule_entry_lt ks hks r 3 0))
    (xor_lt_256 hT.2.1 (schedule_entry_lt ks hks r 3 1))
    (xor_lt_256 hT.2.2.1 (schedule_entry_lt ks hks r 3 2))
    (xor_lt_256 hT.2.2.2 (schedule_entry_lt ks hks r 3 3))

theorem goodState_bytes_to_state_16 (data : List Nat) (h : data.length = 16)
    (hb : ∀ b ∈ data, b < 256) : goodState (bytes_to_state data) := by
  obtain ⟨b0, b1, b2, b3, b4, b5, b6, b7, b8, b9, b10, b11, b12, b13, b14, b15, rfl⟩ :=
    exists_len_sixteen data h
  rw [bytes_to_state_sixteen]
  exact goodState_mk _ _ _ _ _ _ _ _ _ _ _ _ _ _ _ _
    (hb _ (by simp)) (hb _ (by simp)) (hb _ (by simp)) (hb _ (by simp))
    (hb _ (by simp)) (hb _ (by simp)) (hb _ (by simp)) (hb _ (by simp))
    (hb _ (by simp)) (hb _ (by simp)) (hb _ (by simp)) (hb _ (by simp))
    (hb _ (by simp)) (hb _ (by simp)) (hb _ (by simp)) (hb _ (by simp))

theorem b2s_s2b (s : List (List Nat)) (h4 : s.length = 4)
    (hr : ∀ row ∈ s, row.length = 4) : bytes_to_state (state_to_bytes s) = s := by
  obtain ⟨w, x, y, z, rfl⟩ := exists_len_four s h4
  obtain ⟨p0, p1, p2, p3, rfl⟩ := exists_len_four w (hr _ (by simp))
  obtain ⟨q0, q1, q2, q3, rfl⟩ := exists_len_four x (hr _ (by simp))
  obtain ⟨u0, u1, u2, u3, rfl⟩ := exists_len_four y (hr _ (by simp))
  obtain ⟨t0, t1, t2, t3, rfl⟩ := exists_len_four z (hr _ (by simp))
  rw [show state_to_bytes [[p0, p1, p2, p3], [q0, q1, q2, q3], [u0, u1, u2, u3], [t0, t1, t2, t3]]
      = [p0, p1, p2, p3, q0, q1, q2, q3, u0, u1, u2, u3, t0, t1, t2, t3] from rfl]
  rw [bytes_to_state_sixteen]

theorem state_to_bytes_length_16 (s : List (List Nat)) (h4 : s.length = 4)
    (hr : ∀ row ∈ s, row.length = 4) : (state_to_bytes s).length = 16 := by
  obtain ⟨w, x, y, z, rfl⟩ := exists_len_four s h4
  obtain ⟨p0, p1, p2, p3, rfl⟩ := exists_len_four w (hr _ (by simp))
  obtain ⟨q0, q1, q2, q3, rfl⟩ := exists_len_four x (hr _ (by simp))
  obtain ⟨u0, u1, u2, u3, rfl⟩ := exists_len_four y (hr _ (by simp))
  obtain ⟨t0, t1, t2, t3, rfl⟩ := exists_len_four z (hr _ (by simp))
  rfl

/-! ### Cancellation of the round transformations -/

theorem inv_shift_rows_shift_rows (s : List (List Nat)) (h4 : s.length = 4)
    (hr : ∀ row ∈ s, row.length = 4) : inv_shift_rows (shift_rows s) = s := by
  obtain ⟨w, x, y, z, rfl⟩ := exists_len_four s h4
  obtain ⟨p0, p1, p2, p3, rfl⟩ := exists_len_four w (hr _ (by simp))
  obtain ⟨q0, q1, q2, q3, rfl⟩ := exists_len_four x (hr _ (by simp))
  obtain ⟨u0, u1, u2, u3, rfl⟩ := exists_len_four y (hr _ (by simp))
  obtain ⟨t0, t1, t2, t3, rfl⟩ := exists_len_four z (hr _ (by simp))
  rfl

theorem inv_sub_bytes_sub_bytes (s : List (List Nat)) (hs : goodState s) :
    inv_sub_bytes (sub_bytes s) = s := by
  obtain ⟨p0, p1, p2, p3, q0, q1, q2, q3, u0, u1, u2, u3, t0, t1, t2, t3,
    rfl, hP, hQ, hU, hT⟩ := goodState_destruct s hs
  rw [sub_bytes_explicit, inv_sub_bytes_explicit]
  rw [inv_sbox_sbox p0 hP.1, inv_sbox_sbox p1 hP.2.1, inv_sbox_sbox p2 hP.2.2.1,
      inv_sbox_sbox p3 hP.2.2.2, inv_sbox_sbox q0 hQ.1, inv_sbox_sbox q1 hQ.2.1,
      inv_sbox_sbox q2 hQ.2.2.1, inv_sbox_sbox q3 hQ.2.2.2, inv_sbox_sbox u0 hU.1,
      inv_sbox_sbox u1 hU.2.1, inv_sbox_sbox u2 hU.2.2.1, inv_sbox_sbox u3 hU.2.2.2,
      inv_sbox_sbox t0 hT.1, inv_sbox_sbox t1 hT.2.1, inv_sbox_sbox t2 hT.2.2.1,
      inv_sbox_sbox t3 hT.2.2.2]

theorem add_round_key_add_round_key (s : List (List Nat)) (ks : List (List (List Nat)))
    (r : Nat) (h4 : s.length = 4) (hr : ∀ row ∈ s, row.length = 4) :
    add_round_key (add_round_key s ks r) ks r = s := by
  obtain ⟨w, x, y, z, rfl⟩ := exists_len_four s h4
  obtain ⟨p0, p1, p2, p3, rfl⟩ := exists_len_four w (hr _ (by simp))
  obtain ⟨q0, q1, q2, q3, rfl⟩ := exists_len_four x (hr _ (by simp))
  obtain ⟨u0, u1, u2, u3, rfl⟩ := exists_len_four y (hr _ (by simp))
  obtain ⟨t0, t1, t2, t3, rfl⟩ := exists_len_four z (hr _ (by simp))
  rw [add_round_key_explicit, add_round_key_explicit]
  simp [Nat.xor_cancel_right]

/-! ### One decryption round undoes one encryption round -/

theorem dec_round_enc_round (ks : List (List (List Nat))) (hks : goodSchedule ks)
    (r : Nat) (s : List (List Nat)) (hs : goodState s) :
    decryption_round ks (shift_rows (sub_bytes (encryption_round ks s r))) r
      = shift_rows (sub_bytes s) := by
  have h1 : goodState (sub_bytes s) :=
    goodState_sub_bytes s hs.1 (fun row h => (hs.2 row h).1)
  have h2 : goodState (shift_rows (sub_bytes s)) := goodState_shift_rows _ h1
  have h3 : goodState (mix_columns (shift_rows (sub_bytes s))) := goodState_mix_columns _ h2
  have h4 : goodState (encryption_round ks s r) := goodState_add_round_key _ ks r h3 hks
  have h5 : goodState (sub_bytes (encryption_round ks s r)) :=
    goodState_sub_bytes _ h4.1 (fun row h => (h4.2 row h).1)
  unfold decryption_round
  rw [inv_shift_rows_shift_rows _ h5.1 (fun row h => (h5.2 row h).1)]
  rw [inv_sub_bytes_sub_bytes _ h4]
  unfold encryption_round
  rw [add_round_key_add_round_key _ ks r h3.1 (fun row h => (h3.2 row h).1)]
  exact inv_mix_mix_goodState _ h2.1 h2.2

theorem foldl_enc_good (ks : List (List (List Nat))) (hks : goodSchedule ks) :
    ∀ (L : List Nat) (s : List (List Nat)), goodState s →
      goodState (L.foldl (encryption_round ks) s) := by
  intro L
  induction L with
  | nil =>
    intro s hs
    simpa using hs
  | cons a t ih =>
    intro s hs
    rw [List.foldl_cons]
    exact ih _ (goodState_add_round_key _ ks a
      (goodState_mix_columns _ (goodState_shift_rows _
        (goodState_sub_bytes s hs.1 (fun row h => (hs.2 row h).1)))) hks)

theorem fold_roundtrip (ks : List (List (List Nat))) (hks : goodSchedule ks)
    (L : List Nat) :
    ∀ (s : List (List Nat)), goodState s →
    (L.reverse).foldl (decryption_round ks)
        (shift_rows (sub_bytes (L.foldl (encryption_round ks) s)))
      = shift_rows (sub_bytes s) := by
  induction L using List.reverseRecOn with
  | nil =>
    intro s hs
    simp
  | append_singleton M r ih =>
    intro s hs
    rw [List.foldl_append, List.foldl_cons, List.foldl_nil, List.reverse_append]
    simp only [List.reverse_cons, List.reverse_nil, List.nil_append, List.singleton_append]
    rw [List.foldl_cons]
    rw [dec_round_enc_round ks hks r _ (foldl_enc_good ks hks M s hs)]
    exact ih s hs

theorem enc_dec_states (ks : List (List (List Nat))) (hks : goodSchedule ks)
    (Nr : Nat) (s0 : List (List Nat)) (hs0 : goodState s0) :
    add_round_key (inv_sub_bytes (inv_shift_rows
      (((List.range' 1 (Nr - 1)).reverse).foldl (decryption_round ks)
        (add_round_key (bytes_to_state (state_to_bytes
          (add_round_key (shift_rows (sub_bytes
            ((List.range' 1 (Nr - 1)).foldl (encryption_round ks)
              (add_round_key s0 ks 0))))
            ks Nr)))
          ks Nr)))) ks 0
      = s0 := by
  have hS0 : goodState (add_round_key s0 ks 0) := goodState_add_round_key s0 ks 0 hs0 hks
  have hF : goodState ((List.range' 1 (Nr - 1)).foldl (encryption_round ks)
      (add_round_key s0 ks 0)) :=
    foldl_enc_good ks hks _ _ hS0
  have h1 : goodState (sub_bytes ((List.range' 1 (Nr - 1)).foldl (encryption_round ks)
      (add_round_key s0 ks 0))) :=
    goodState_sub_bytes _ hF.1 (fun row h => (hF.2 row h).1)
  have h2 : goodState (shift_rows (sub_bytes ((List.range' 1 (Nr - 1)).foldl
      (encryption_round ks) (add_round_key s0 ks 0)))) :=
    goodState_shift_rows _ h1
  have h3 : goodState (add_round_key (shift_rows (sub_bytes ((List.range' 1 (Nr - 1)).foldl
      (encryption_round ks) (add_round_key s0 ks 0)))) ks Nr) :=
    goodState_add_round_key _ ks Nr h2 hks
  rw [b2s_s2b _ h3.1 (fun row h => (h3.2 row h).1)]
  rw [add_round_key_add_round_key _ ks Nr h2.1 (fun row h => (h2.2 row h).1)]
  rw [fold_roundtrip ks hks (List.range' 1 (Nr - 1)) (add_round_key s0 ks 0) hS0]
  have h4 : goodState (sub_bytes (add_round_key s0 ks 0)) :=
    goodState_sub_bytes _ hS0.1 (fun row h => (hS0.2 row h).1)
  rw [inv_shift_rows_shift_rows _ h4.1 (fun row h => (h4.2 row h).1)]
  rw [inv_sub_bytes_sub_bytes _ hS0]
  exact add_round_key_add_round_key s0 ks 0 hs0.1 (fun row h => (hs0.2 row h).1)

/-! ### Claim C1 -/

/-- Claim C1: for every 16-byte block and every key of length 16, 24 or 32
bytes, encryption succeeds and decryption of the result under the same key
returns the original block. -/
theorem decryption_encryption (data key : List Nat)
    (hdata : data.length = 16) (hdb : ∀ b ∈ data, b < 256)
    (hkey : key.length = 16 ∨ key.length = 24 ∨ key.length = 32)
    (hkb : ∀ b ∈ key, b < 256) :
    ∃ c, encryption data key = some c ∧ decryption c key = some data := by
  obtain ⟨ks, hksE, hks⟩ := key_expansion_good key hkey hkb
  obtain ⟨Nr, hNr⟩ : ∃ n, numberRoundsOf (key.length * 8) = some n := by
    rcases hkey with h | h | h <;> (rw [h]; exact ⟨_, rfl⟩)
  have henc : encryption data key = some (state_to_bytes (add_round_key (shift_rows (sub_bytes
      ((List.range' 1 (Nr - 1)).foldl (encryption_round ks)
        (add_round_key (bytes_to_state data) ks 0)))) ks Nr)) := by
    unfold encryption
    rw [hNr, hksE]
    rfl
  have hdec : decryption (state_to_bytes (add_round_key (shift_rows (sub_bytes
      ((List.range' 1 (Nr - 1)).foldl (encryption_round ks)
        (add_round_key (bytes_to_state data) ks 0)))) ks Nr)) key
      = some (state_to_bytes (add_round_key (inv_sub_bytes (inv_shift_rows
        (((List.range' 1 (Nr - 1)).reverse).foldl (decryption_round ks)
          (add_round_key (bytes_to_state (state_to_bytes (add_round_key (shift_rows (sub_bytes
            ((List.range' 1 (Nr - 1)).foldl (encryption_round ks)
              (add_round_key (bytes_to_state data) ks 0)))) ks Nr)))
            ks Nr)))) ks 0)) := by
    unfold decryption
    rw [hNr, hksE]
    rfl
  refine ⟨_, henc, ?_⟩
  rw [hdec]
  rw [enc_dec_states ks hks Nr (bytes_to_state data)
    (goodState_bytes_to_state_16 data hdata hdb)]
  rw [s2b_b2s data hdata]

/-- Witness for C1 at the FIPS-197 AES-128 plaintext and key. -/
theorem decryption_encryption_witness :
    ∃ c, encryption
        [0x00, 0x11, 0x22, 0x33, 0x44, 0x55, 0x66, 0x77,
         0x88, 0x99, 0xaa, 0xbb, 0xcc, 0xdd, 0xee, 0xff]
        [0x00, 0x01, 0x02, 0x03, 0x04, 0x05, 0x06, 0x07,
         0x08, 0x09, 0x0a, 0x0b, 0x0c, 0x0d, 0x0e, 0x0f] = some c ∧
      decryption c
        [0x00, 0x01, 0x02, 0x03, 0x04, 0x05, 0x06, 0x07,
         0x08, 0x09, 0x0a, 0x0b, 0x0c, 0x0d, 0x0e, 0x0f]
        = some [0x00, 0x11, 0x22, 0x33, 0x44, 0x55, 0x66, 0x77,
                0x88, 0x99, 0xaa, 0xbb, 0xcc, 0xdd, 0xee, 0xff] :=
  decryption_encryption _ _ (by decide) (by decide) (Or.inl (by decide)) (by decide)

/-! ### Claim C6: the ECB driver -/

theorem encryption_block_16 (block key : List Nat) (hb : block.length = 16)
    (hbb : ∀ x ∈ block, x < 256)
    (hkey : key.length = 16 ∨ key.length = 24 ∨ key.length = 32)
    (hkb : ∀ b ∈ key, b < 256) :
    ∃ c, encryption block key = some c ∧ c.length = 16 := by
  obtain ⟨ks, hksE, hks⟩ := key_expansion_good key hkey hkb
  obtain ⟨Nr, hNr⟩ : ∃ n, numberRoundsOf (key.length * 8) = some n := by
    rcases hkey with h | h | h <;> (rw [h]; exact ⟨_, rfl⟩)
  have henc : encryption block key = some (state_to_bytes (add_round_key (shift_rows (sub_bytes
      ((List.range' 1 (Nr - 1)).foldl (encryption_round ks)
        (add_round_key (bytes_to_state block) ks 0)))) ks Nr)) := by
    unfold encryption
    rw [hNr, hksE]
    rfl
  have g0 := goodState_add_round_key (bytes_to_state block) ks 0
    (goodState_bytes_to_state_16 block hb hbb) hks
  have g1 := foldl_enc_good ks hks (List.range' 1 (Nr - 1)) _ g0
  have g2 := goodState_sub_bytes _ g1.1 (fun row h => (g1.2 row h).1)
  have g3 := goodState_shift_rows _ g2
  have g4 := goodState_add_round_key _ ks Nr g3 hks
  exact ⟨_, henc, state_to_bytes_length_16 _ g4.1 (fun row h => (g4.2 row h).1)⟩

theorem mapM_option_collect (f : Nat → Option (List Nat)) :
    ∀ (l : List Nat), (∀ j ∈ l, ∃ y, f j = some y ∧ y.length = 16) →
    ∃ ys, l.mapM f = some ys ∧ ys.length = l.length ∧
      (∀ y ∈ ys, y.length = 16) ∧
      ∀ k, k < l.length → f (l.getD k 0) = some (ys.getD k []) := by
  intro l
  induction l with
  | nil =>
    intro _
    exact ⟨[], rfl, rfl, by simp, fun k hk => by simp at hk⟩
  | cons a t ih =>
    intro h
    obtain ⟨y, hy, hylen⟩ := h a (by simp)
    obtain ⟨ys, hys, hlen, hall, hidx⟩ := ih (fun j hj => h j (by simp [hj]))
    refine ⟨y :: ys, ?_, by simp [hlen], ?_, ?_⟩
    · rw [List.mapM_cons, hy, hys]
      rfl
    · intro z hz
      rcases List.mem_cons.mp hz with rfl | hz2
      · exact hylen
      · exact hall z hz2
    · intro k hk
      cases k with
      | zero => simpa using hy
      | succ k2 =>
        simp only [List.getD_cons_succ]
        exact hidx k2 (by simp only [List.length_cons] at hk; omega)

theorem flatten_length_16 : ∀ (ys : List (List Nat)), (∀ y ∈ ys, y.length = 16) →
    ys.flatten.length = 16 * ys.length := by
  intro ys
  induction ys with
  | nil =>
    intro _
    simp
  | cons a t ih =>
    intro h
    simp only [List.flatten_cons, List.length_append, List.length_cons]
    rw [h a (by simp), ih (fun y hy => h y (by simp [hy]))]
    omega

theorem getD_range (n j : Nat) (h : j < n) : (List.range n).getD j 0 = j := by
  rw [List.getD_eq_getElem (l := List.range n) (d := 0) (by simpa using h)]
  simp

/-- Claim C6: for every input buffer and every valid key, ecb_encryption
returns the concatenation, in block order, of encryption applied to each of
the first len(buffer) / 16 consecutive 16-byte blocks; the output length is
16 * (len(buffer) / 16), so trailing remainder bytes are dropped. -/
theorem ecb_encryption_blockwise (plain key : List Nat)
    (hpb : ∀ x ∈ plain, x < 256)
    (hkey : key.length = 16 ∨ key.length = 24 ∨ key.length = 32)
    (hkb : ∀ b ∈ key, b < 256) :
    ∃ outs : List (List Nat),
      ecb_encryption plain key = some outs.flatten ∧
      outs.length = plain.length / 16 ∧
      (∀ j, j < plain.length / 16 →
        encryption ((plain.drop (j * 16)).take 16) key = some (outs.getD j [])) ∧
      outs.flatten.length = 16 * (plain.length / 16) := by
  have hblocks : ∀ j ∈ List.range (plain.length / 16),
      ∃ y, encryption ((plain.drop (j * 16)).take 16) key = some y ∧ y.length = 16 := by
    intro j hj
    rw [List.mem_range] at hj
    apply encryption_block_16 _ key ?_ ?_ hkey hkb
    · rw [List.length_take, List.length_drop]
      omega
    · intro x hx
      exact hpb x (List.mem_of_mem_drop (List.mem_of_mem_take hx))
  obtain ⟨ys, hmapM, hlen, hall, hidx⟩ := mapM_option_collect
    (fun j => encryption ((plain.drop (j * 16)).take 16) key)
    (List.range (plain.length / 16)) hblocks
  refine ⟨ys, ?_, ?_, ?_, ?_⟩
  · unfold ecb_encryption
    simp only [AES_BLOCK_SIZE]
    rw [hmapM]
    rfl
  · rw [hlen, List.length_range]
  · intro j hj
    have hj2 : j < (List.range (plain.length / 16)).length := by
      rw [List.length_range]
      exact hj
    have h := hidx j hj2
    rwa [getD_range _ j hj] at h
  · rw [flatten_length_16 ys hall, hlen, List.length_range]

/-- Witness for C6 at a 35-byte buffer (two blocks plus a 3-byte remainder)
and a 16-byte key. -/
theorem ecb_encryption_blockwise_witness :
    ∃ outs : List (List Nat),
      ecb_encryption
          [0, 1, 2, 3, 4, 5, 6, 7, 8, 9, 10, 11, 12, 13, 14, 15,
           16, 17, 18, 19, 20, 21, 22, 23, 24, 25, 26, 27, 28, 29, 30, 31,
           32, 33, 34]
          [0x00, 0x01, 0x02, 0x03, 0x04, 0x05, 0x06, 0x07,
           0x08, 0x09, 0x0a, 0x0b, 0x0c, 0x0d, 0x0e, 0x0f] = some outs.flatten ∧
      outs.length = (35 : Nat) / 16 ∧
      (∀ j, j < (35 : Nat) / 16 →
        encryption ((List.drop (j * 16)
            [0, 1, 2, 3, 4, 5, 6, 7, 8, 9, 10, 11, 12, 13, 14, 15,
             16, 17, 18, 19, 20, 21, 22, 23, 24, 25, 26, 27, 28, 29, 30, 31,
             32, 33, 34]).take 16)
          [0x00, 0x01, 0x02, 0x03, 0x04, 0x05, 0x06, 0x07,
           0x08, 0x09, 0x0a, 0x0b, 0x0c, 0x0d, 0x0e, 0x0f] = some (outs.getD j [])) ∧
      outs.flatten.length = 16 * ((35 : Nat) / 16) := by
  have h := ecb_encryption_blockwise
    [0, 1, 2, 3, 4, 5, 6, 7, 8, 9, 10, 11, 12, 13, 14, 15,
     16, 17, 18, 19, 20, 21, 22, 23, 24, 25, 26, 27, 28, 29, 30, 31,
     32, 33, 34]
    [0x00, 0x01, 0x02, 0x03, 0x04, 0x05, 0x06, 0x07,
     0x08, 0x09, 0x0a, 0x0b, 0x0c, 0x0d, 0x0e, 0x0f]
    (by decide) (Or.inl (by decide)) (by decide)
  simpa using h
